import Mathlib

/-!
Shallow embedding of the ESLint rule `src/rules/order.js` from
eslint-plugin-react-jsx-props-order: classification of JSX attributes,
the comparator, spread-preserving sorting, grouping, and the fix builder.

JavaScript strings are modelled as Lean `String`, with the string
operations (`includes`, `split`, `startsWith`-style regex tests) expressed
through `String.toList` so that every definition is executable by the
kernel.  Node identity is modelled by an `id : Nat` field carried by every
attribute node: two nodes are "the same node" exactly when they are equal
as Lean values.  `Array.prototype.sort` with a comparator is modelled as
the stable `List.mergeSort` with `le a b := compare a b ≤ 0`; for a
consistent comparator this is exactly the stable sort ECMAScript mandates.
When the comparator is inconsistent — here, when an attribute classifies
as `UNKNOWN`, since it then compares equal to everything — ECMAScript
leaves the resulting order implementation-defined and engines differ from
any fixed model, so the theorems below use only properties that hold for
every choice of sort in that regime (the output is a permutation, spread
positions and segment structure are preserved) or restrict themselves to
comparator-consistent inputs.
-/

namespace JsxPropsOrder

/-- Syntactic shape of the expression found inside a `JSXExpressionContainer`
(the `expression` field).  `otherExpr` stands for every further node type,
for example `JSXEmptyExpression`, call expressions or member expressions;
`none` at use sites models a missing (`null`-ish) expression. -/
inductive ExprNode where
  | arrowFunctionExpression
  | functionExpression
  | objectExpression
  | identifier (name : String)
  | literal
  | otherExpr
  deriving DecidableEq, Repr

/-- Shape of the `value` field of a `JSXAttribute`.  Each constructor carries
`raw`, the verbatim source text `sourceCode.getText(prop.value)` of the
value node (the text-extraction capability supplied by the host). -/
inductive ValueNode where
  | literalV (raw : String)
  | exprContainer (expr : Option ExprNode) (raw : String)
  | otherV (raw : String)
  deriving DecidableEq, Repr

/-- The raw source text of a value node. -/
def valueRaw : ValueNode → String
  | .literalV r => r
  | .exprContainer _ r => r
  | .otherV r => r

/-- Data of a `JSXAttribute` node.  `name = none` models the malformed cases
`!prop.name` or `typeof prop.name.name !== "string"`; `value = none` models
`prop.value === null` (boolean shorthand).  `raw` is
`sourceCode.getText(prop)` and `id` is the node's identity. -/
structure JSXAttrData where
  id : Nat
  name : Option String
  value : Option ValueNode
  raw : String
  deriving DecidableEq, Repr

/-- An element of `node.attributes`: a `JSXAttribute`, a
`JSXSpreadAttribute`, or any other node type. -/
inductive Attr where
  | jsxAttr (d : JSXAttrData)
  | spreadAttr (id : Nat) (raw : String)
  | otherAttr (id : Nat) (raw : String)
  deriving DecidableEq, Repr

/-- Models `attr.type === "JSXSpreadAttribute"`. -/
def isSpreadB : Attr → Bool
  | .spreadAttr _ _ => true
  | _ => false

/-- Discriminates the `type` string of an attribute node. -/
def attrTypeTag : Attr → Nat
  | .jsxAttr _ => 0
  | .spreadAttr _ _ => 1
  | .otherAttr _ _ => 2

/-- Configuration as resolved inside `create`. -/
structure Config where
  reactPropsList : List String
  shouldPrioritizeReactProps : Bool
  deriving DecidableEq, Repr

/-! Prop categories (the `PROP_CATEGORIES` enum). -/

def REACT_RESERVED : Int := -1

def SHORTHAND : Int := 0

def STRING : Int := 1

def VARIABLE : Int := 2

def FUNCTION : Int := 3

def MULTILINE_OBJECT : Int := 4

def MULTILINE_FUNCTION : Int := 5

def UNKNOWN : Int := 6

/-- Models the character class `[A-Z]`. -/
def isUpperAlpha (c : Char) : Bool := decide ('A' ≤ c) && decide (c ≤ 'Z')

/-- Tests whether `s` starts with the literal characters of `pre`. -/
def textStartsWith (pre s : String) : Bool := pre.toList.isPrefixOf s.toList

/-- Tests whether `s` ends with the literal characters of `suf`. -/
def textEndsWith (suf s : String) : Bool := suf.toList.isSuffixOf s.toList

/-- Tests `^pre[A-Z]`: the string starts with `pre` followed by an upper
case letter. -/
def headUpperAfter (pre s : String) : Bool :=
  textStartsWith pre s &&
    (match s.toList.drop pre.toList.length with
     | c :: _ => isUpperAlpha c
     | [] => false)

/-- Models `PATTERNS.FUNCTION`, the regex
`Handler$|Callback$|^on[A-Z]|^handle[A-Z]|^toggle[A-Z]`. -/
def testFunctionPattern (n : String) : Bool :=
  textEndsWith "Handler" n || textEndsWith "Callback" n ||
  headUpperAfter "on" n || headUpperAfter "handle" n || headUpperAfter "toggle" n

/-- Models `PATTERNS.OBJECT`, the regex
`Config$|Options$|Props$|Style$|Data$|^obj|^data`. -/
def testObjectPattern (n : String) : Bool :=
  textEndsWith "Config" n || textEndsWith "Options" n || textEndsWith "Props" n ||
  textEndsWith "Style" n || textEndsWith "Data" n ||
  textStartsWith "obj" n || textStartsWith "data" n

/-- Models the helper `isFunction(expr)`. -/
def isFunctionExpr : Option ExprNode → Bool
  | some .arrowFunctionExpression => true
  | some .functionExpression => true
  | some (.identifier n) => testFunctionPattern n
  | _ => false

/-- Models the helper `isObject(expr)`. -/
def isObjectExpr : Option ExprNode → Bool
  | some .objectExpression => true
  | some (.identifier n) => testObjectPattern n
  | _ => false

/-- Models `propValueText.includes('\n')`. -/
def textIsMultiline (s : String) : Bool := s.toList.contains '\n'

/-- Models `getPropCategory(prop)`.  The `try`/`catch` of the source cannot
fire here because text extraction is total in the embedding (the raw text
is stored on the node), so the `catch`-to-`UNKNOWN` path has no
counterpart. -/
def getPropCategory (cfg : Config) (p : Attr) : Int :=
  match p with
  | .jsxAttr d =>
    match d.name with
    | none => UNKNOWN
    | some propName =>
      if cfg.shouldPrioritizeReactProps && cfg.reactPropsList.contains propName then
        REACT_RESERVED
      else
        match d.value with
        | none => SHORTHAND
        | some v =>
          if textIsMultiline (valueRaw v) then
            match v with
            | .exprContainer e _ =>
              if isFunctionExpr e then MULTILINE_FUNCTION
              else if isObjectExpr e then MULTILINE_OBJECT
              else if testFunctionPattern propName then MULTILINE_FUNCTION
              else if testObjectPattern propName then MULTILINE_OBJECT
              else MULTILINE_OBJECT
            | _ =>
              if testFunctionPattern propName then MULTILINE_FUNCTION
              else if testObjectPattern propName then MULTILINE_OBJECT
              else MULTILINE_OBJECT
          else
            match v with
            | .literalV _ => STRING
            | .exprContainer e _ =>
              if (match e with | some .literal => true | _ => false) then STRING
              else if isFunctionExpr e then FUNCTION
              else if testFunctionPattern propName then FUNCTION
              else if testObjectPattern propName then VARIABLE
              else VARIABLE
            | .otherV _ => VARIABLE
  | _ => UNKNOWN

/-- Three-way comparison of character lists, modelling
`String.prototype.localeCompare` as code-point comparison (the spec allows
any locale-consistent total comparison). -/
def charListCmp : List Char → List Char → Int
  | [], [] => 0
  | [], _ :: _ => -1
  | _ :: _, [] => 1
  | a :: as, b :: bs =>
    if a < b then -1 else if b < a then 1 else charListCmp as bs

/-- Models `nameA.localeCompare(nameB)` up to sign. -/
def localeCompare (s t : String) : Int := charListCmp s.toList t.toList

/-- Models `text.split("\n").length`: one more than the number of newline
characters. -/
def textLines (s : String) : Int := 1 + (s.toList.count '\n' : Int)

/-- Models `sourceCode.getText(prop.value).split("\n").length` for the
multiline tie-break.  The `none` case is unreachable there, because the
multiline categories require a present value. -/
def valueLines (d : JSXAttrData) : Int :=
  match d.value with
  | some v => textLines (valueRaw v)
  | none => 1

/-- Models `Array.prototype.indexOf` on the priority list: the index of the
first occurrence, or `-1` when absent. -/
def jsIndexOfAux (s : String) : List String → Int
  | [] => -1
  | x :: xs =>
    if x = s then 0
    else
      let r := jsIndexOfAux s xs
      if r = -1 then -1 else r + 1

/-- Models `reactPropsList.indexOf(name)`. -/
def jsIndexOf (l : List String) (s : String) : Int := jsIndexOfAux s l

/-- Models `compareProps(propA, propB)`.  The guard on attribute shape and
the final `return 0` fall-throughs of the source are reproduced literally;
the `try`/`catch` wrappers cannot fire because extraction is total. -/
def compareProps (cfg : Config) (pA pB : Attr) : Int :=
  let categoryA := getPropCategory cfg pA
  let categoryB := getPropCategory cfg pB
  if categoryA = UNKNOWN ∨ categoryB = UNKNOWN then 0
  else if categoryA ≠ categoryB then categoryA - categoryB
  else
    match pA, pB with
    | .jsxAttr a, .jsxAttr b =>
      match a.name, b.name with
      | some nameA, some nameB =>
        let rest : Int :=
          if (nameA.length : Int) ≠ (nameB.length : Int) then
            (nameA.length : Int) - (nameB.length : Int)
          else if nameA ≠ nameB then localeCompare nameA nameB
          else if categoryA = MULTILINE_OBJECT ∨ categoryA = MULTILINE_FUNCTION then
            valueLines a - valueLines b
          else 0
        if categoryA = REACT_RESERVED then
          let indexA := jsIndexOf cfg.reactPropsList nameA
          let indexB := jsIndexOf cfg.reactPropsList nameB
          if indexA ≠ -1 ∧ indexB ≠ -1 then indexA - indexB
          else if indexA ≠ -1 then -1
          else if indexB ≠ -1 then 1
          else rest
        else rest
      | _, _ => 0
    | _, _ => 0

/-- The Boolean order fed to the stable sort: `a` may precede `b` when the
comparator does not demand the opposite. -/
def propLE (cfg : Config) (a b : Attr) : Bool := decide (compareProps cfg a b ≤ 0)

/-- The loop body of `sortAttributesPreservingSpreadPrecedence`: normal
attributes are accumulated in `currentGroup`; a spread operator flushes the
sorted group, then is appended unchanged. -/
def sortLoop (cfg : Config) : List Attr → List Attr → List Attr
  | currentGroup, [] => currentGroup.mergeSort (propLE cfg)
  | currentGroup, a :: rest =>
    if isSpreadB a then
      currentGroup.mergeSort (propLE cfg) ++ a :: sortLoop cfg [] rest
    else
      sortLoop cfg (currentGroup ++ [a]) rest

/-- Models `sortAttributesPreservingSpreadPrecedence(attributes)`. -/
def sortAttributesPreservingSpreadPrecedence (cfg : Config) (attributes : List Attr) :
    List Attr :=
  if attributes.length ≤ 1 then attributes else sortLoop cfg [] attributes

/-- The loop body of `groupAttributesBySpread`: each attribute is first
pushed onto the current group; a spread attribute or the last attribute
then closes the group. -/
def groupLoop : List Attr → List Attr → List (List Attr)
  | _, [] => []
  | currentGroup, [a] => [currentGroup ++ [a]]
  | currentGroup, a :: b :: rest =>
    if isSpreadB a then
      (currentGroup ++ [a]) :: groupLoop [] (b :: rest)
    else
      groupLoop (currentGroup ++ [a]) (b :: rest)

/-- Models `groupAttributesBySpread(attributes)`. -/
def groupAttributesBySpread (attributes : List Attr) : List (List Attr) :=
  groupLoop [] attributes

/-- The data of a `JSXOpeningElement` node that the rule consumes:
`tagName` is `sourceCode.getText(node.name)`, `nodeText` is
`sourceCode.getText(node)`. -/
structure ElementNode where
  tagName : String
  selfClosing : Bool
  nodeText : String
  attributes : List Attr
  deriving DecidableEq, Repr

/-- Models the character class `\s` for the characters that can occur at
the start of an extracted node text. -/
def isJsSpace (c : Char) : Bool :=
  decide (c = ' ') || decide (c = '\t') || decide (c = '\n') || decide (c = '\r')

/-- Models `nodeText.match(/^\s*/)`: the leading whitespace of the text. -/
def leadingSpace (s : String) : String := String.mk (s.toList.takeWhile isJsSpace)

/-- Models `sourceCode.getText(attr)`.  The `catch`-placeholder branch of
the source cannot fire because extraction is total in the embedding. -/
def attrSourceText : Attr → String
  | .jsxAttr d => d.raw
  | .spreadAttr _ r => r
  | .otherAttr _ r => r

/-- Models `Array.prototype.flatten(sep)`. -/
def jsJoin (sep : String) : List String → String
  | [] => ""
  | [s] => s
  | s :: rest => s ++ sep ++ jsJoin sep rest

/-- The replacement text built by `createFix` once the safety checks have
passed: tag name, each attribute on its own line behind
`indent + two spaces`, and the original terminator. -/
def createFixText (node : ElementNode) (sortedAttributes : List Attr) : String :=
  let indent := leadingSpace node.nodeText
  let attrIndent := indent ++ "  "
  let sortedAttributesText :=
    jsJoin ("\n" ++ attrIndent) (sortedAttributes.map attrSourceText)
  "<" ++ node.tagName ++ "\n" ++ attrIndent ++ sortedAttributesText ++
    (if node.selfClosing then " />" else ">")

/-- Models the fixer function returned by `createFix`: `none` is the
`return null` of a failed safety check, `some text` the
`fixer.replaceText(node, fixedText)` call. -/
def createFix (node : ElementNode) (attributes sortedAttributes : List Attr) :
    Option String :=
  if attributes.length ≠ sortedAttributes.length then none
  else if ¬ (sortedAttributes.all (fun attr => attributes.contains attr)) then none
  else some (createFixText node sortedAttributes)

/-- Models `areAttributesEquivalent(attrsA, attrsB)`: same length and
element-wise identity (the type comparison of the source is subsumed by
node identity but reproduced). -/
def areAttributesEquivalent (attrsA attrsB : List Attr) : Bool :=
  if attrsA.length ≠ attrsB.length then false
  else
    (attrsA.zip attrsB).all
      (fun p => attrTypeTag p.1 == attrTypeTag p.2 && p.1 == p.2)

/-- Models `node.attributes.length === sortedAttributes.length &&
node.attributes.every(attr => sortedAttributes.includes(attr))`. -/
def allPreserved (attributes sortedAttributes : List Attr) : Bool :=
  attributes.length == sortedAttributes.length &&
    attributes.all (fun attr => sortedAttributes.contains attr)

/-- Outcome of one `JSXOpeningElement` visit: no report, a report carrying
the fixer outcome and the sorted attribute list, or a report without fix. -/
inductive RuleResult where
  | noChange
  | report (fix : Option String) (sorted : List Attr)
  | reportNoFix
  deriving DecidableEq, Repr

/-- Models the `JSXOpeningElement(node)` visitor. -/
def jsxOpeningElement (cfg : Config) (node : ElementNode) : RuleResult :=
  if node.attributes.length ≤ 1 then .noChange
  else
    let sortedAttributes := sortAttributesPreservingSpreadPrecedence cfg node.attributes
    if areAttributesEquivalent node.attributes sortedAttributes then .noChange
    else if allPreserved node.attributes sortedAttributes then
      .report (createFix node node.attributes sortedAttributes) sortedAttributes
    else .reportNoFix

/-- The options object as supplied by the caller; `none` models an absent
(or `null`-ish) property. -/
structure RuleOptions where
  reactPropsFirst : Option Bool
  reactPropsList : Option (List String)
  deriving DecidableEq, Repr

/-- The fallback priority list written inline in `create`. -/
def defaultReactPropsList : List String :=
  ["key", "ref", "dangerouslySetInnerHTML", "children",
   "value", "defaultValue", "checked", "defaultChecked",
   "className", "style", "id", "name"]

/-- Models the option resolution in `create`:
`options.reactPropsList || [...]` (any supplied array, even the empty one,
is truthy in JavaScript) and `options.reactPropsFirst !== false`. -/
def resolveConfig (o : RuleOptions) : Config :=
  { reactPropsList :=
      match o.reactPropsList with
      | some l => l
      | none => defaultReactPropsList
    shouldPrioritizeReactProps := decide (o.reactPropsFirst ≠ some false) }

/-! Concrete attribute nodes used as test data by the theorems below. -/

/-- The configuration produced by `create` when the caller supplies no
options at all. -/
def cfgDefault : Config := resolveConfig ⟨none, none⟩

/-- A boolean-shorthand attribute `a`. -/
def attrShort : Attr := .jsxAttr ⟨100, some "a", none, "a"⟩

/-- A string-literal attribute `b="1"`. -/
def attrLit : Attr := .jsxAttr ⟨101, some "b", some (.literalV "\"1\""), "b=\"1\""⟩

/-- A single-line variable attribute `c={v}`. -/
def attrVar : Attr :=
  .jsxAttr ⟨102, some "c", some (.exprContainer (some (.identifier "v")) "\x7bv\x7d"), "c=\x7bv\x7d"⟩

/-- An attribute node of an unexpected type: neither `JSXAttribute` nor
`JSXSpreadAttribute`. -/
def attrOther : Attr := .otherAttr 103 "??"

/-- A spread attribute. -/
def attrSpread : Attr := .spreadAttr 104 "\x7b...rest\x7d"

/-! General lemmas about the sorting loop. -/

/-- The sorting loop only permutes: its output is a permutation of the
pending group followed by the remaining input. -/
theorem sortLoop_perm (cfg : Config) :
    ∀ (rest currentGroup : List Attr),
      (sortLoop cfg currentGroup rest).Perm (currentGroup ++ rest)
  | [], g => by
    simpa using List.mergeSort_perm g (propLE cfg)
  | a :: rest, g => by
    by_cases h : isSpreadB a = true
    · simp only [sortLoop, h, if_true]
      exact (List.mergeSort_perm g (propLE cfg)).append ((sortLoop_perm cfg rest []).cons a)
    · simp only [sortLoop, h, if_false, Bool.false_eq_true]
      simpa [List.append_assoc] using sortLoop_perm cfg rest (g ++ [a])

/-- The sorter returns a permutation of its input. -/
theorem sortAttributes_perm (cfg : Config) (l : List Attr) :
    (sortAttributesPreservingSpreadPrecedence cfg l).Perm l := by
  unfold sortAttributesPreservingSpreadPrecedence
  split
  · exact List.Perm.refl l
  · simpa using sortLoop_perm cfg l []

/-- Position-wise spread profile of an attribute list: `some a` at the
positions holding a spread marker `a`, `none` elsewhere. -/
def spreadMark (a : Attr) : Option Attr := if isSpreadB a then some a else none

theorem map_spreadMark_eq_replicate {l : List Attr} (h : ∀ a ∈ l, isSpreadB a = false) :
    l.map spreadMark = List.replicate l.length none := by
  induction l with
  | nil => simp
  | cons a l ih =>
    have ha : isSpreadB a = false := h a (by simp)
    have ih' := ih (fun x hx => h x (by simp [hx]))
    simp [spreadMark, ha, ih', List.replicate_succ]

/-- The spread profile of the sorting loop's output: the pending group
contributes non-spread positions, the remaining input contributes its own
profile unchanged. -/
theorem sortLoop_map_spreadMark (cfg : Config) :
    ∀ (rest currentGroup : List Attr), (∀ a ∈ currentGroup, isSpreadB a = false) →
      (sortLoop cfg currentGroup rest).map spreadMark =
        List.replicate currentGroup.length none ++ rest.map spreadMark
  | [], g, hg => by
    have hmem : ∀ a ∈ g.mergeSort (propLE cfg), isSpreadB a = false := fun a ha =>
      hg a (List.mem_mergeSort.mp ha)
    simp [sortLoop, map_spreadMark_eq_replicate hmem]
  | a :: rest, g, hg => by
    by_cases h : isSpreadB a = true
    · have hmem : ∀ x ∈ g.mergeSort (propLE cfg), isSpreadB x = false := fun x hx =>
        hg x (List.mem_mergeSort.mp hx)
      have ih := sortLoop_map_spreadMark cfg rest [] (by simp)
      simp [sortLoop, h, map_spreadMark_eq_replicate hmem, ih, spreadMark]
    · have h' : isSpreadB a = false := by simpa using h
      have hg' : ∀ x ∈ g ++ [a], isSpreadB x = false := by
        intro x hx
        rcases List.mem_append.mp hx with hx | hx
        · exact hg x hx
        · simp only [List.mem_singleton] at hx
          exact hx ▸ h'
      have ih := sortLoop_map_spreadMark cfg rest (g ++ [a]) hg'
      simp only [sortLoop, h', Bool.false_eq_true, if_false, ih]
      simp [spreadMark, h', List.replicate_succ', List.append_assoc]

/-- Decomposition of an attribute list into its spread-bounded segments:
the runs of non-spread attributes strictly between consecutive spread
markers (or a marker and a list end).  A list with `k` spread markers has
exactly `k + 1` segments, empty segments included; the markers themselves
belong to no segment. -/
def segmentsBySpread : List Attr → List (List Attr)
  | [] => [[]]
  | a :: l =>
    if isSpreadB a then [] :: segmentsBySpread l
    else
      match segmentsBySpread l with
      | [] => [[a]]
      | g :: gs => (a :: g) :: gs

theorem segmentsBySpread_all_nonspread :
    ∀ {l : List Attr}, (∀ a ∈ l, isSpreadB a = false) → segmentsBySpread l = [l]
  | [], _ => rfl
  | a :: l, h => by
    have ih := segmentsBySpread_all_nonspread
      (fun x hx => h x (List.mem_cons_of_mem a hx))
    simp [segmentsBySpread, h a (List.mem_cons_self a l), ih]

theorem segmentsBySpread_cons_spread {s : Attr} (hs : isSpreadB s = true)
    (l : List Attr) : segmentsBySpread (s :: l) = [] :: segmentsBySpread l := by
  simp [segmentsBySpread, hs]

theorem segmentsBySpread_append :
    ∀ (xs l g : List Attr) (gs : List (List Attr)),
      (∀ x ∈ xs, isSpreadB x = false) → segmentsBySpread l = g :: gs →
      segmentsBySpread (xs ++ l) = (xs ++ g) :: gs
  | [], l, g, gs, _, hl => by simpa using hl
  | x :: xs, l, g, gs, h, hl => by
    have ih := segmentsBySpread_append xs l g gs
      (fun a ha => h a (List.mem_cons_of_mem x ha)) hl
    simp [segmentsBySpread, h x (List.mem_cons_self x xs), ih]

/-- Segment decomposition of the sorting loop's output: each spread-bounded
segment of the output is a permutation of the corresponding segment of the
pending group followed by the remaining input. -/
theorem sortLoop_segments (cfg : Config) :
    ∀ (rest currentGroup : List Attr), (∀ a ∈ currentGroup, isSpreadB a = false) →
      List.Forall₂ List.Perm (segmentsBySpread (sortLoop cfg currentGroup rest))
        (segmentsBySpread (currentGroup ++ rest))
  | [], g, hg => by
    have hmem : ∀ a ∈ g.mergeSort (propLE cfg), isSpreadB a = false := fun a ha =>
      hg a (List.mem_mergeSort.mp ha)
    have h1 : segmentsBySpread (g.mergeSort (propLE cfg)) =
        [g.mergeSort (propLE cfg)] := segmentsBySpread_all_nonspread hmem
    have h2 : segmentsBySpread (g ++ []) = [g] := by
      rw [List.append_nil]
      exact segmentsBySpread_all_nonspread hg
    simp only [sortLoop, h1, h2]
    exact List.Forall₂.cons (List.mergeSort_perm g (propLE cfg)) List.Forall₂.nil
  | a :: rest, g, hg => by
    by_cases h : isSpreadB a = true
    · have hmem : ∀ x ∈ g.mergeSort (propLE cfg), isSpreadB x = false := fun x hx =>
        hg x (List.mem_mergeSort.mp hx)
      have ih := sortLoop_segments cfg rest [] (by simp)
      have hD1 := segmentsBySpread_append (g.mergeSort (propLE cfg))
        (a :: sortLoop cfg [] rest) [] (segmentsBySpread (sortLoop cfg [] rest)) hmem
        (segmentsBySpread_cons_spread h (sortLoop cfg [] rest))
      have hD2 := segmentsBySpread_append g (a :: rest) [] (segmentsBySpread rest) hg
        (segmentsBySpread_cons_spread h rest)
      simp only [sortLoop, h, if_true, hD1, hD2, List.append_nil]
      exact List.Forall₂.cons (List.mergeSort_perm g (propLE cfg)) (by simpa using ih)
    · have h' : isSpreadB a = false := by simpa using h
      have hg' : ∀ x ∈ g ++ [a], isSpreadB x = false := by
        intro x hx
        rcases List.mem_append.mp hx with hx | hx
        · exact hg x hx
        · simp only [List.mem_singleton] at hx
          exact hx ▸ h'
      have ih := sortLoop_segments cfg rest (g ++ [a]) hg'
      simp only [sortLoop, h', Bool.false_eq_true, if_false]
      simpa [List.append_assoc] using ih

/-- C2: the output of `sortAttributesPreservingSpreadPrecedence` keeps
every spread marker at the same absolute position as in the input (hence
also in the same relative order), and only the non-spread attributes lying
between consecutive spread markers (or a marker and a list end) are
permuted: segment by segment the output is a permutation of the input,
and globally as well. -/
theorem claim2_spread_positions_preserved (cfg : Config) (attributes : List Attr) :
    (sortAttributesPreservingSpreadPrecedence cfg attributes).map spreadMark =
        attributes.map spreadMark ∧
      List.Forall₂ List.Perm
        (segmentsBySpread (sortAttributesPreservingSpreadPrecedence cfg attributes))
        (segmentsBySpread attributes) ∧
      (sortAttributesPreservingSpreadPrecedence cfg attributes).Perm attributes := by
  refine ⟨?_, ?_, sortAttributes_perm cfg attributes⟩
  · unfold sortAttributesPreservingSpreadPrecedence
    split
    · rfl
    · simpa using sortLoop_map_spreadMark cfg attributes [] (by simp)
  · unfold sortAttributesPreservingSpreadPrecedence
    split
    · exact List.forall₂_same.mpr (fun x _ => List.Perm.refl x)
    · simpa using sortLoop_segments cfg attributes [] (by simp)

/-- C1: every replacement the rule emits carries a permutation by identity
of the original attribute list (same length, every member an original
node), and the fixer's own permutation check returns `null` (no
replacement) whenever it fails. -/
theorem claim1_emitted_replacement_is_permutation :
    (∀ (cfg : Config) (node : ElementNode) (fix : Option String) (sorted : List Attr),
        jsxOpeningElement cfg node = .report fix sorted →
        sorted.Perm node.attributes ∧ sorted.length = node.attributes.length ∧
          ∀ a ∈ sorted, a ∈ node.attributes) ∧
    (∀ (node : ElementNode) (attributes sortedAttributes : List Attr),
        (attributes.length ≠ sortedAttributes.length ∨
          ∃ a ∈ sortedAttributes, a ∉ attributes) →
        createFix node attributes sortedAttributes = none) := by
  constructor
  · intro cfg node fix sorted h
    simp only [jsxOpeningElement] at h
    split at h
    · exact absurd h (by simp)
    · split at h
      · exact absurd h (by simp)
      · split at h
        · have hs : sorted = sortAttributesPreservingSpreadPrecedence cfg node.attributes := by
            cases h
            rfl
          subst hs
          have hp := sortAttributes_perm cfg node.attributes
          exact ⟨hp, hp.length_eq, fun a ha => hp.mem_iff.mp ha⟩
        · exact absurd h (by simp)
  · intro node attributes sortedAttributes h
    unfold createFix
    by_cases hl : attributes.length = sortedAttributes.length
    · rcases h with h | ⟨a, ha, hna⟩
      · exact absurd hl h
      · simp [hl]
        exact ⟨a, ha, hna⟩
    · simp [hl]

/-- Witness for C1: a concrete element that is reported with a fix whose
attribute list is a permutation of the original, and a concrete failed
safety check on which the fixer yields no replacement. -/
theorem claim1_witness :
    ([attrShort, attrLit] : List Attr).Perm [attrLit, attrShort] ∧
      createFix ⟨"C", true, "<C a b />", []⟩ [] [attrShort] = none := by
  have h : jsxOpeningElement cfgDefault ⟨"C", true, "<C a b />", [attrLit, attrShort]⟩ =
      .report (createFix ⟨"C", true, "<C a b />", [attrLit, attrShort]⟩
        [attrLit, attrShort] [attrShort, attrLit]) [attrShort, attrLit] := by
    simp +decide [jsxOpeningElement, sortAttributesPreservingSpreadPrecedence, sortLoop,
      List.mergeSort, List.splitInTwo, List.merge, List.splitAt_eq, propLE, compareProps,
      getPropCategory, cfgDefault, resolveConfig, defaultReactPropsList, attrLit, attrShort,
      UNKNOWN, SHORTHAND, STRING, REACT_RESERVED, textIsMultiline, valueRaw, localeCompare,
      charListCmp, jsIndexOf, jsIndexOfAux, isSpreadB, areAttributesEquivalent, allPreserved,
      attrTypeTag]
  refine ⟨?_, ?_⟩
  · exact (claim1_emitted_replacement_is_permutation.1 cfgDefault
      ⟨"C", true, "<C a b />", [attrLit, attrShort]⟩ _ _ h).1
  · exact claim1_emitted_replacement_is_permutation.2 ⟨"C", true, "<C a b />", []⟩ []
      [attrShort] (Or.inl (by decide))

/-! Grouping. -/

/-- The grouping loop on a nonempty remainder: the groups concatenate back
to the pending group followed by the remainder, no group is empty, and
inside a group only the last element can be a spread marker. -/
theorem groupLoop_spec :
    ∀ (rest currentGroup : List Attr), (∀ x ∈ currentGroup, isSpreadB x = false) →
      rest ≠ [] →
      (groupLoop currentGroup rest).flatten = currentGroup ++ rest ∧
        ∀ g ∈ groupLoop currentGroup rest,
          g ≠ [] ∧ ∀ x ∈ g.dropLast, isSpreadB x = false
  | [], _, _, hne => absurd rfl hne
  | [a], g, hg, _ => by
    refine ⟨by simp [groupLoop], ?_⟩
    intro gr hgr
    simp only [groupLoop, List.mem_singleton] at hgr
    subst hgr
    refine ⟨by simp, ?_⟩
    intro x hx
    rw [List.dropLast_concat] at hx
    exact hg x hx
  | a :: b :: rest, g, hg, _ => by
    by_cases h : isSpreadB a = true
    · obtain ⟨ih1, ih2⟩ := groupLoop_spec (b :: rest) [] (by simp) (by simp)
      constructor
      · simp [groupLoop, h, ih1, List.append_assoc]
      · intro gr hgr
        simp only [groupLoop, h, if_true, List.mem_cons] at hgr
        rcases hgr with rfl | hgr
        · refine ⟨by simp, ?_⟩
          intro x hx
          rw [List.dropLast_concat] at hx
          exact hg x hx
        · exact ih2 gr hgr
    · have h' : isSpreadB a = false := by simpa using h
      have hg' : ∀ x ∈ g ++ [a], isSpreadB x = false := by
        intro x hx
        rcases List.mem_append.mp hx with hx | hx
        · exact hg x hx
        · simp only [List.mem_singleton] at hx
          exact hx ▸ h'
      obtain ⟨ih1, ih2⟩ := groupLoop_spec (b :: rest) (g ++ [a]) hg' (by simp)
      constructor
      · simp only [groupLoop, h', Bool.false_eq_true, if_false, ih1]
        simp [List.append_assoc]
      · intro gr hgr
        simp only [groupLoop, h', Bool.false_eq_true, if_false] at hgr
        exact ih2 gr hgr

/-- C3 is refuted on the code: a spread marker is not excluded from the
groups; `groupAttributesBySpread` puts it at the end of the group it
closes. -/
theorem claim3_counterexample :
    ∃ g ∈ groupAttributesBySpread [attrShort, attrSpread], ∃ x ∈ g, isSpreadB x = true := by
  decide

/-- C3 (amended): `groupAttributesBySpread` partitions the attribute
sequence in order; a spread marker closes the current group and is included
as its last element (it is not excluded, and no empty group is ever
produced); all group members before the last are non-spread. -/
theorem claim3_grouping_partition (attributes : List Attr) :
    (groupAttributesBySpread attributes).flatten = attributes ∧
      ∀ g ∈ groupAttributesBySpread attributes,
        g ≠ [] ∧ ∀ x ∈ g.dropLast, isSpreadB x = false := by
  cases attributes with
  | nil => exact ⟨by simp [groupAttributesBySpread, groupLoop], by
      simp [groupAttributesBySpread, groupLoop]⟩
  | cons a rest => exact groupLoop_spec (a :: rest) [] (by simp) (by simp)

/-- Witness for the amended C3 at a concrete input. -/
theorem claim3_witness :
    (groupAttributesBySpread [attrShort, attrSpread]).flatten = [attrShort, attrSpread] ∧
      isSpreadB attrShort = false := by
  refine ⟨(claim3_grouping_partition [attrShort, attrSpread]).1, ?_⟩
  exact ((claim3_grouping_partition [attrShort, attrSpread]).2
    [attrShort, attrSpread] (by decide)).2 attrShort (by decide)

/-! Option resolution. -/

/-- C9: with no `reactPropsList` option the priority list is the inline
12-name fallback, and with no `reactPropsFirst` option prioritization is
enabled. -/
theorem claim9_default_priority_list :
    ∀ o : RuleOptions, o.reactPropsList = none →
      (resolveConfig o).reactPropsList =
        ["key", "ref", "dangerouslySetInnerHTML", "children",
         "value", "defaultValue", "checked", "defaultChecked",
         "className", "style", "id", "name"] ∧
      (o.reactPropsFirst = none → (resolveConfig o).shouldPrioritizeReactProps = true) := by
  intro o h
  constructor
  · simp [resolveConfig, h, defaultReactPropsList]
  · intro h2
    simp [resolveConfig, h2]

/-- Witness for C9 at the empty options object. -/
theorem claim9_witness :
    (resolveConfig ⟨none, none⟩).reactPropsList =
      ["key", "ref", "dangerouslySetInnerHTML", "children",
       "value", "defaultValue", "checked", "defaultChecked",
       "className", "style", "id", "name"] ∧
      (resolveConfig ⟨none, none⟩).shouldPrioritizeReactProps = true := by
  obtain ⟨h1, h2⟩ := claim9_default_priority_list ⟨none, none⟩ rfl
  exact ⟨h1, h2 rfl⟩

/-- When the `REACT_RESERVED` branch of the classifier is not taken, the
resulting category is one of the non-negative ones. -/
theorem getPropCategory_nonneg_of_not_listed (cfg : Config) (d : JSXAttrData) (n : String)
    (hn : d.name = some n)
    (h : (cfg.shouldPrioritizeReactProps && cfg.reactPropsList.contains n) = false) :
    0 ≤ getPropCategory cfg (.jsxAttr d) := by
  simp only [getPropCategory, hn, h, Bool.false_eq_true, if_false]
  cases hv : d.value with
  | none => norm_num [SHORTHAND]
  | some v =>
    simp only []
    split
    · split
      · split_ifs <;> norm_num [MULTILINE_FUNCTION, MULTILINE_OBJECT]
      · split_ifs <;> norm_num [MULTILINE_FUNCTION, MULTILINE_OBJECT]
    · split
      · norm_num [STRING]
      · split_ifs <;> norm_num [STRING, FUNCTION, VARIABLE]
      · norm_num [VARIABLE]

/-- C10: a caller-supplied empty `reactPropsList` is used as-is (the value
`[]` is truthy in JavaScript), so no attribute ever classifies as
`REACT_RESERVED`. -/
theorem claim10_empty_list_used_as_is :
    ∀ (o : RuleOptions) (p : Attr), o.reactPropsList = some [] →
      (resolveConfig o).reactPropsList = [] ∧
        getPropCategory (resolveConfig o) p ≠ REACT_RESERVED := by
  intro o p h
  have hlist : (resolveConfig o).reactPropsList = [] := by simp [resolveConfig, h]
  refine ⟨hlist, ?_⟩
  cases p with
  | jsxAttr d =>
    cases hn : d.name with
    | none => simp [getPropCategory, hn, UNKNOWN, REACT_RESERVED]
    | some n =>
      have hc : ((resolveConfig o).shouldPrioritizeReactProps &&
          (resolveConfig o).reactPropsList.contains n) = false := by
        simp [hlist]
      have hge := getPropCategory_nonneg_of_not_listed (resolveConfig o) d n hn hc
      intro hr
      rw [hr] at hge
      norm_num [REACT_RESERVED] at hge
  | spreadAttr i r => simp [getPropCategory, UNKNOWN, REACT_RESERVED]
  | otherAttr i r => simp [getPropCategory, UNKNOWN, REACT_RESERVED]

/-- Witness for C10 at a concrete options object and attribute. -/
theorem claim10_witness :
    (resolveConfig ⟨none, some []⟩).reactPropsList = [] ∧
      getPropCategory (resolveConfig ⟨none, some []⟩) attrLit ≠ REACT_RESERVED :=
  claim10_empty_list_used_as_is ⟨none, some []⟩ attrLit rfl

/-! The comparator as a lexicographic key.  On attributes that do not
classify as `UNKNOWN`, `compareProps` coincides with the comparison of a
five-component key; this yields transitivity and totality of the order on
such attributes. -/

theorem charListCmp_eq_zero_iff : ∀ {x y : List Char}, charListCmp x y = 0 ↔ x = y
  | [], [] => by simp [charListCmp]
  | [], _ :: _ => by simp [charListCmp]
  | _ :: _, [] => by simp [charListCmp]
  | a :: as, b :: bs => by
    simp only [charListCmp]
    split_ifs with h1 h2
    · constructor
      · intro h
        exact absurd h (by norm_num)
      · intro h
        cases h
        exact absurd h1 (lt_irrefl a)
    · constructor
      · intro h
        exact absurd h (by norm_num)
      · intro h
        cases h
        exact absurd h2 (lt_irrefl a)
    · have hab : a = b := le_antisymm (le_of_not_lt h2) (le_of_not_lt h1)
      subst hab
      rw [charListCmp_eq_zero_iff]
      simp

theorem charListCmp_antisym : ∀ (x y : List Char), charListCmp x y = - charListCmp y x
  | [], [] => by simp [charListCmp]
  | [], _ :: _ => by simp [charListCmp]
  | _ :: _, [] => by simp [charListCmp]
  | a :: as, b :: bs => by
    simp only [charListCmp]
    rcases lt_trichotomy a b with h | h | h
    · simp [h, lt_asymm h]
    · subst h
      simp [lt_irrefl, charListCmp_antisym as bs]
    · simp [h, lt_asymm h]

theorem charListCmp_neg_trans :
    ∀ (x y z : List Char), charListCmp x y < 0 → charListCmp y z < 0 →
      charListCmp x z < 0
  | x, [], z, h1, h2 => by
    cases x <;> simp_all [charListCmp]
  | [], _ :: _, [], _, h2 => by simp_all [charListCmp]
  | [], _ :: _, _ :: _, _, _ => by simp [charListCmp]
  | _ :: _, _ :: _, [], _, h2 => by simp_all [charListCmp]
  | x :: xs, y :: ys, z :: zs, h1, h2 => by
    simp only [charListCmp] at h1 h2 ⊢
    rcases lt_trichotomy x y with hxy | hxy | hxy
    · rcases lt_trichotomy y z with hyz | hyz | hyz
      · rw [if_pos (lt_trans hxy hyz)]
        norm_num
      · subst hyz
        rw [if_pos hxy]
        norm_num
      · rw [if_neg (lt_asymm hyz), if_pos hyz] at h2
        exact absurd h2 (by norm_num)
    · subst hxy
      rcases lt_trichotomy x z with hxz | hxz | hxz
      · rw [if_pos hxz]
        norm_num
      · subst hxz
        rw [if_neg (lt_irrefl x), if_neg (lt_irrefl x)] at h1 h2 ⊢
        exact charListCmp_neg_trans xs ys zs h1 h2
      · rw [if_neg (lt_asymm hxz), if_pos hxz] at h2
        exact absurd h2 (by norm_num)
    · rw [if_neg (lt_asymm hxy), if_pos hxy] at h1
      exact absurd h1 (by norm_num)

theorem charListCmp_le_trans {x y z : List Char}
    (h1 : charListCmp x y ≤ 0) (h2 : charListCmp y z ≤ 0) : charListCmp x z ≤ 0 := by
  rcases eq_or_lt_of_le h1 with h1 | h1
  · have hxy : x = y := charListCmp_eq_zero_iff.mp h1
    subst hxy
    exact h2
  · rcases eq_or_lt_of_le h2 with h2 | h2
    · have hyz : y = z := charListCmp_eq_zero_iff.mp h2
      subst hyz
      exact h1.le
    · exact (charListCmp_neg_trans x y z h1 h2).le

theorem jsIndexOfAux_ge : ∀ (s : String) (l : List String), -1 ≤ jsIndexOfAux s l
  | _, [] => by simp [jsIndexOfAux]
  | s, x :: xs => by
    have ih := jsIndexOfAux_ge s xs
    simp only [jsIndexOfAux]
    split_ifs <;> omega

theorem jsIndexOfAux_nonneg_of_mem :
    ∀ (s : String) (l : List String), s ∈ l → 0 ≤ jsIndexOfAux s l
  | s, [], h => by simp at h
  | s, x :: xs, h => by
    have ge := jsIndexOfAux_ge s xs
    simp only [jsIndexOfAux]
    by_cases h1 : x = s
    · simp [h1]
    · have hmem : s ∈ xs := by
        rcases List.mem_cons.mp h with h | h
        · exact absurd h.symm h1
        · exact h
      have ih := jsIndexOfAux_nonneg_of_mem s xs hmem
      simp only [h1, if_false]
      split_ifs <;> omega

theorem jsIndexOfAux_inj :
    ∀ (l : List String) (s t : String), jsIndexOfAux s l = jsIndexOfAux t l →
      jsIndexOfAux s l ≠ -1 → s = t
  | [], _, _, _, hne => absurd rfl hne
  | x :: xs, s, t, heq, hne => by
    have ges := jsIndexOfAux_ge s xs
    have get := jsIndexOfAux_ge t xs
    simp only [jsIndexOfAux] at heq hne
    by_cases h1 : x = s <;> by_cases h2 : x = t
    · exact h1.symm.trans h2
    · rw [if_pos h1, if_neg h2] at heq
      exfalso
      split_ifs at heq
      all_goals omega
    · rw [if_neg h1, if_pos h2] at heq
      exfalso
      split_ifs at heq
      all_goals omega
    · rw [if_neg h1] at heq hne
      rw [if_neg h2] at heq
      have hs : jsIndexOfAux s xs = jsIndexOfAux t xs := by
        split_ifs at heq <;> omega
      have hns : jsIndexOfAux s xs ≠ -1 := by
        split_ifs at hne <;> omega
      exact jsIndexOfAux_inj xs s t hs hns

/-- The lexicographic sorting key underlying `compareProps` on attributes
that do not classify as `UNKNOWN`: category, priority-list index, name
length, name, and line count of the value text. -/
structure SortKey where
  kcat : Int
  kidx : Int
  klen : Int
  kname : List Char
  klines : Int
  deriving DecidableEq, Repr

/-- The key of an attribute.  For `REACT_RESERVED` attributes only the
category and the priority-list index matter (the comparator returns the
index difference before any further tie-break), so the remaining
components are constant there. -/
def keyOf (cfg : Config) (p : Attr) : SortKey :=
  match p with
  | .jsxAttr d =>
    match d.name with
    | some n =>
      if getPropCategory cfg p = REACT_RESERVED then
        ⟨getPropCategory cfg p, jsIndexOf cfg.reactPropsList n, 0, [], 0⟩
      else
        ⟨getPropCategory cfg p, 0, (n.length : Int), n.toList,
         if getPropCategory cfg p = MULTILINE_OBJECT ∨
             getPropCategory cfg p = MULTILINE_FUNCTION then valueLines d
         else 0⟩
    | none => ⟨UNKNOWN, 0, 0, [], 0⟩
  | _ => ⟨UNKNOWN, 0, 0, [], 0⟩

/-- Lexicographic comparison of keys. -/
def compareKey (k l : SortKey) : Int :=
  if k.kcat = l.kcat then
    if k.kidx = l.kidx then
      if k.klen = l.klen then
        if k.kname = l.kname then k.klines - l.klines
        else charListCmp k.kname l.kname
      else k.klen - l.klen
    else k.kidx - l.kidx
  else k.kcat - l.kcat

theorem compareKey_antisym (k l : SortKey) : compareKey k l = - compareKey l k := by
  obtain ⟨c1, i1, n1, m1, s1⟩ := k
  obtain ⟨c2, i2, n2, m2, s2⟩ := l
  simp only [compareKey]
  by_cases a : c1 = c2
  · subst a
    rw [if_pos rfl, if_pos rfl]
    by_cases b : i1 = i2
    · subst b
      rw [if_pos rfl, if_pos rfl]
      by_cases c : n1 = n2
      · subst c
        rw [if_pos rfl, if_pos rfl]
        by_cases d : m1 = m2
        · subst d
          rw [if_pos rfl, if_pos rfl]
          omega
        · rw [if_neg d, if_neg (Ne.symm d)]
          exact charListCmp_antisym m1 m2
      · rw [if_neg c, if_neg (Ne.symm c)]
        omega
    · rw [if_neg b, if_neg (Ne.symm b)]
      omega
  · rw [if_neg a, if_neg (Ne.symm a)]
    omega

theorem compareKey_eq_zero_iff {k l : SortKey} : compareKey k l = 0 ↔ k = l := by
  obtain ⟨c1, i1, n1, m1, s1⟩ := k
  obtain ⟨c2, i2, n2, m2, s2⟩ := l
  simp only [compareKey, SortKey.mk.injEq]
  constructor
  · intro h
    by_cases a : c1 = c2
    · subst a
      rw [if_pos rfl] at h
      by_cases b : i1 = i2
      · subst b
        rw [if_pos rfl] at h
        by_cases c : n1 = n2
        · subst c
          rw [if_pos rfl] at h
          by_cases d : m1 = m2
          · subst d
            rw [if_pos rfl] at h
            exact ⟨rfl, rfl, rfl, rfl, by omega⟩
          · rw [if_neg d] at h
            exact absurd (charListCmp_eq_zero_iff.mp h) d
        · rw [if_neg c] at h
          exact absurd (by omega : n1 = n2) c
      · rw [if_neg b] at h
        exact absurd (by omega : i1 = i2) b
    · rw [if_neg a] at h
      exact absurd (by omega : c1 = c2) a
  · rintro ⟨rfl, rfl, rfl, rfl, rfl⟩
    simp

theorem compareKey_neg_trans {k l m : SortKey}
    (h1 : compareKey k l < 0) (h2 : compareKey l m < 0) : compareKey k m < 0 := by
  obtain ⟨c1, i1, n1, m1, s1⟩ := k
  obtain ⟨c2, i2, n2, m2, s2⟩ := l
  obtain ⟨c3, i3, n3, m3, s3⟩ := m
  simp only [compareKey] at h1 h2 ⊢
  by_cases a1 : c1 = c2 <;> by_cases a2 : c2 = c3
  · subst a1
    subst a2
    rw [if_pos rfl] at h1 h2 ⊢
    by_cases b1 : i1 = i2 <;> by_cases b2 : i2 = i3
    · subst b1
      subst b2
      rw [if_pos rfl] at h1 h2 ⊢
      by_cases e1 : n1 = n2 <;> by_cases e2 : n2 = n3
      · subst e1
        subst e2
        rw [if_pos rfl] at h1 h2 ⊢
        by_cases d1 : m1 = m2 <;> by_cases d2 : m2 = m3
        · subst d1
          subst d2
          rw [if_pos rfl] at h1 h2 ⊢
          omega
        · subst d1
          rw [if_neg d2] at h2
          rw [if_neg d2]
          exact h2
        · subst d2
          rw [if_neg d1] at h1
          rw [if_neg d1]
          exact h1
        · rw [if_neg d1] at h1
          rw [if_neg d2] at h2
          have h3 := charListCmp_neg_trans m1 m2 m3 h1 h2
          have d3 : m1 ≠ m3 := fun he =>
            absurd (charListCmp_eq_zero_iff.mpr he) (by omega)
          rw [if_neg d3]
          exact h3
      · subst e1
        rw [if_neg e2] at h2
        rw [if_neg e2]
        exact h2
      · subst e2
        rw [if_neg e1] at h1
        rw [if_neg e1]
        exact h1
      · rw [if_neg e1] at h1
        rw [if_neg e2] at h2
        rw [if_neg (by omega : n1 ≠ n3)]
        omega
    · subst b1
      rw [if_neg b2] at h2
      rw [if_neg b2]
      exact h2
    · subst b2
      rw [if_neg b1] at h1
      rw [if_neg b1]
      exact h1
    · rw [if_neg b1] at h1
      rw [if_neg b2] at h2
      rw [if_neg (by omega : i1 ≠ i3)]
      omega
  · subst a1
    rw [if_neg a2] at h2
    rw [if_neg a2]
    exact h2
  · subst a2
    rw [if_neg a1] at h1
    rw [if_neg a1]
    exact h1
  · rw [if_neg a1] at h1
    rw [if_neg a2] at h2
    rw [if_neg (by omega : c1 ≠ c3)]
    omega

theorem compareKey_le_trans {k l m : SortKey}
    (h1 : compareKey k l ≤ 0) (h2 : compareKey l m ≤ 0) : compareKey k m ≤ 0 := by
  rcases eq_or_lt_of_le h1 with h1 | h1
  · have hkl : k = l := compareKey_eq_zero_iff.mp h1
    subst hkl
    exact h2
  · rcases eq_or_lt_of_le h2 with h2 | h2
    · have hlm : l = m := compareKey_eq_zero_iff.mp h2
      subst hlm
      exact h1.le
    · exact (compareKey_neg_trans h1 h2).le

theorem stringToList_inj {s t : String} (h : s.toList = t.toList) : s = t :=
  String.ext h

/-- An attribute that does not classify as `UNKNOWN` is a well-formed
`JSXAttribute` with a string name. -/
theorem exists_jsx_of_cat_ne_unknown {cfg : Config} {p : Attr}
    (h : getPropCategory cfg p ≠ UNKNOWN) :
    ∃ d n, p = Attr.jsxAttr d ∧ d.name = some n := by
  cases p with
  | jsxAttr d =>
    cases hn : d.name with
    | none => exact absurd (by simp [getPropCategory, hn]) h
    | some n => exact ⟨d, n, rfl, hn⟩
  | spreadAttr i r => exact absurd (by simp [getPropCategory]) h
  | otherAttr i r => exact absurd (by simp [getPropCategory]) h

/-- An attribute classifies as `REACT_RESERVED` only when prioritization is
on and its name is a member of the priority list. -/
theorem react_mem_of_cat_react {cfg : Config} {d : JSXAttrData} {n : String}
    (hn : d.name = some n) (h : getPropCategory cfg (.jsxAttr d) = REACT_RESERVED) :
    n ∈ cfg.reactPropsList := by
  by_cases hc : (cfg.shouldPrioritizeReactProps && cfg.reactPropsList.contains n) = true
  · have := (Bool.and_eq_true _ _).mp hc
    have hmem : cfg.reactPropsList.elem n = true := this.2
    exact List.elem_iff.mp hmem
  · have hge := getPropCategory_nonneg_of_not_listed cfg d n hn (by simpa using hc)
    rw [h] at hge
    exact absurd hge (by norm_num [REACT_RESERVED])

/-- The category component of the key. -/
theorem keyOf_kcat {cfg : Config} {d : JSXAttrData} {n : String} (hn : d.name = some n) :
    (keyOf cfg (.jsxAttr d)).kcat = getPropCategory cfg (.jsxAttr d) := by
  simp only [keyOf, hn]
  split <;> rfl

/-- On attributes that do not classify as `UNKNOWN`, the comparator is
exactly the lexicographic key comparison. -/
theorem compareProps_eq_key (cfg : Config) (pA pB : Attr)
    (ha : getPropCategory cfg pA ≠ UNKNOWN) (hb : getPropCategory cfg pB ≠ UNKNOWN) :
    compareProps cfg pA pB = compareKey (keyOf cfg pA) (keyOf cfg pB) := by
  obtain ⟨da, na, rfl, hna⟩ := exists_jsx_of_cat_ne_unknown ha
  obtain ⟨db, nb, rfl, hnb⟩ := exists_jsx_of_cat_ne_unknown hb
  by_cases hcat : getPropCategory cfg (.jsxAttr da) = getPropCategory cfg (.jsxAttr db)
  · by_cases hr : getPropCategory cfg (.jsxAttr da) = REACT_RESERVED
    · have hrb : getPropCategory cfg (.jsxAttr db) = REACT_RESERVED := hcat ▸ hr
      have hia : 0 ≤ jsIndexOf cfg.reactPropsList na :=
        jsIndexOfAux_nonneg_of_mem na _ (react_mem_of_cat_react hna hr)
      have hib : 0 ≤ jsIndexOf cfg.reactPropsList nb :=
        jsIndexOfAux_nonneg_of_mem nb _ (react_mem_of_cat_react hnb hrb)
      have hka : keyOf cfg (.jsxAttr da) =
          ⟨getPropCategory cfg (.jsxAttr da), jsIndexOf cfg.reactPropsList na, 0, [], 0⟩ := by
        simp [keyOf, hna, hr]
      have hkb : keyOf cfg (.jsxAttr db) =
          ⟨getPropCategory cfg (.jsxAttr db), jsIndexOf cfg.reactPropsList nb, 0, [], 0⟩ := by
        simp [keyOf, hnb, hrb]
      rw [hka, hkb]
      simp only [compareProps, hna, hnb, compareKey]
      rw [if_neg (not_or.mpr ⟨ha, hb⟩), if_neg (fun hne => hne hcat), if_pos hr,
        if_pos (⟨by omega, by omega⟩ :
          jsIndexOf cfg.reactPropsList na ≠ -1 ∧ jsIndexOf cfg.reactPropsList nb ≠ -1),
        if_pos hcat]
      by_cases hidx : jsIndexOf cfg.reactPropsList na = jsIndexOf cfg.reactPropsList nb
      · simp [hidx]
      · rw [if_neg hidx]
    · have hrb : ¬ getPropCategory cfg (.jsxAttr db) = REACT_RESERVED := hcat ▸ hr
      have hka : keyOf cfg (.jsxAttr da) =
          ⟨getPropCategory cfg (.jsxAttr da), 0, (na.length : Int), na.toList,
           if getPropCategory cfg (.jsxAttr da) = MULTILINE_OBJECT ∨
               getPropCategory cfg (.jsxAttr da) = MULTILINE_FUNCTION then valueLines da
           else 0⟩ := by
        simp [keyOf, hna, hr]
      have hkb : keyOf cfg (.jsxAttr db) =
          ⟨getPropCategory cfg (.jsxAttr db), 0, (nb.length : Int), nb.toList,
           if getPropCategory cfg (.jsxAttr db) = MULTILINE_OBJECT ∨
               getPropCategory cfg (.jsxAttr db) = MULTILINE_FUNCTION then valueLines db
           else 0⟩ := by
        simp [keyOf, hnb, hrb]
      rw [hka, hkb]
      simp only [compareProps, hna, hnb, compareKey]
      rw [if_neg (not_or.mpr ⟨ha, hb⟩), if_neg (fun hne => hne hcat), if_neg hr,
        if_pos hcat]
      simp only [if_true]
      by_cases hlen : (na.length : Int) = (nb.length : Int)
      · rw [if_neg (fun hne => hne hlen), if_pos hlen]
        by_cases hname : na = nb
        · subst hname
          rw [if_neg (fun hne => hne rfl), if_pos rfl]
          by_cases hml : getPropCategory cfg (.jsxAttr da) = MULTILINE_OBJECT ∨
              getPropCategory cfg (.jsxAttr da) = MULTILINE_FUNCTION
          · rw [if_pos hml, if_pos hml, if_pos (hcat ▸ hml)]
          · rw [if_neg hml, if_neg hml, if_neg (hcat ▸ hml)]
            omega
        · have hname' : na.toList ≠ nb.toList := fun h => hname (stringToList_inj h)
          rw [if_pos hname, if_neg hname']
          rfl
      · rw [if_pos hlen, if_neg hlen]
  · have hk : (keyOf cfg (.jsxAttr da)).kcat ≠ (keyOf cfg (.jsxAttr db)).kcat := by
      rw [keyOf_kcat hna, keyOf_kcat hnb]
      exact hcat
    simp only [compareProps, hna, hnb, compareKey]
    rw [if_neg (not_or.mpr ⟨ha, hb⟩), if_pos hcat, if_neg hk,
      keyOf_kcat hna, keyOf_kcat hnb]

/-- The Boolean key order on attributes. -/
def attrKeyLE (cfg : Config) (a b : Attr) : Bool :=
  decide (compareKey (keyOf cfg a) (keyOf cfg b) ≤ 0)

theorem attrKeyLE_trans (cfg : Config) :
    ∀ (a b c : Attr), attrKeyLE cfg a b → attrKeyLE cfg b c → attrKeyLE cfg a c := by
  intro a b c h1 h2
  simp only [attrKeyLE, decide_eq_true_eq] at h1 h2 ⊢
  exact compareKey_le_trans h1 h2

theorem attrKeyLE_total (cfg : Config) :
    ∀ (a b : Attr), attrKeyLE cfg a b || attrKeyLE cfg b a := by
  intro a b
  simp only [attrKeyLE, Bool.or_eq_true, decide_eq_true_eq]
  have := compareKey_antisym (keyOf cfg a) (keyOf cfg b)
  omega

theorem propLE_eq_attrKeyLE {cfg : Config} {a b : Attr}
    (ha : getPropCategory cfg a ≠ UNKNOWN) (hb : getPropCategory cfg b ≠ UNKNOWN) :
    propLE cfg a b = attrKeyLE cfg a b := by
  simp only [propLE, attrKeyLE, compareProps_eq_key cfg a b ha hb]

/-- On lists without `UNKNOWN` attributes the stable sort by the comparator
agrees with the sort by the lexicographic key order. -/
theorem mergeSort_propLE_eq_key {cfg : Config} {l : List Attr}
    (h : ∀ a ∈ l, getPropCategory cfg a ≠ UNKNOWN) :
    l.mergeSort (propLE cfg) = l.mergeSort (attrKeyLE cfg) := by
  have hmap := List.map_mergeSort
    (fun a hha b hhb => propLE_eq_attrKeyLE (h a hha) (h b hhb) :
      ∀ a ∈ l, ∀ b ∈ l, propLE cfg a b = attrKeyLE cfg (id a) (id b))
  simpa using hmap

/-- Sorting a group without `UNKNOWN` attributes twice is the same as
sorting it once. -/
theorem mergeSort_propLE_idem {cfg : Config} {l : List Attr}
    (h : ∀ a ∈ l, getPropCategory cfg a ≠ UNKNOWN) :
    (l.mergeSort (propLE cfg)).mergeSort (propLE cfg) = l.mergeSort (propLE cfg) := by
  have hm : ∀ a ∈ l.mergeSort (propLE cfg), getPropCategory cfg a ≠ UNKNOWN :=
    fun a ha => h a (List.mem_mergeSort.mp ha)
  rw [mergeSort_propLE_eq_key hm, mergeSort_propLE_eq_key h]
  exact List.mergeSort_of_sorted
    (List.sorted_mergeSort (attrKeyLE_trans cfg) (attrKeyLE_total cfg) l)

theorem takeWhileOfAll {α : Type} (p : α → Bool) :
    ∀ (l : List α), (∀ x ∈ l, p x = true) → l.takeWhile p = l
  | [], _ => rfl
  | a :: l, h => by
    rw [List.takeWhile_cons_of_pos (h a (by simp))]
    rw [takeWhileOfAll p l (fun x hx => h x (by simp [hx]))]

theorem dropWhileOfAll {α : Type} (p : α → Bool) :
    ∀ (l : List α), (∀ x ∈ l, p x = true) → l.dropWhile p = []
  | [], _ => rfl
  | a :: l, h => by
    rw [List.dropWhile_cons_of_pos (h a (by simp))]
    exact dropWhileOfAll p l (fun x hx => h x (by simp [hx]))

theorem takeWhileMiddle {α : Type} (p : α → Bool) :
    ∀ (xs : List α) (y : α) (ys : List α), (∀ x ∈ xs, p x = true) → p y = false →
      (xs ++ y :: ys).takeWhile p = xs ∧ (xs ++ y :: ys).dropWhile p = y :: ys
  | [], y, ys, _, hy => by
    constructor
    · simp [List.takeWhile_cons, hy]
    · simp [List.dropWhile_cons, hy]
  | x :: xs, y, ys, h, hy => by
    obtain ⟨ih1, ih2⟩ := takeWhileMiddle p xs y ys (fun a ha => h a (by simp [ha])) hy
    constructor
    · rw [List.cons_append, List.takeWhile_cons_of_pos (h x (by simp)), ih1]
    · rw [List.cons_append, List.dropWhile_cons_of_pos (h x (by simp)), ih2]

theorem dropWhileHead {α : Type} {p : α → Bool} :
    ∀ {l : List α} {b : α} {bs : List α}, l.dropWhile p = b :: bs → p b = false
  | [], _, _, h => by simp at h
  | a :: l, b, bs, h => by
    by_cases ha : p a = true
    · rw [List.dropWhile_cons_of_pos ha] at h
      exact dropWhileHead h
    · rw [List.dropWhile_cons_of_neg ha] at h
      cases h
      simpa using ha

/-- Structure of the sorting loop: the pending group together with the
leading non-spread run is sorted as one block; a following spread marker is
kept and the loop restarts behind it. -/
theorem sortLoop_eq_chunks (cfg : Config) :
    ∀ (rest currentGroup : List Attr),
      sortLoop cfg currentGroup rest =
        match rest.dropWhile (fun a => !isSpreadB a) with
        | [] =>
          (currentGroup ++ rest.takeWhile (fun a => !isSpreadB a)).mergeSort (propLE cfg)
        | s :: tl =>
          (currentGroup ++ rest.takeWhile (fun a => !isSpreadB a)).mergeSort (propLE cfg) ++
            s :: sortLoop cfg [] tl
  | [], g => by simp [sortLoop]
  | a :: rest, g => by
    by_cases h : isSpreadB a = true
    · rw [List.dropWhile_cons_of_neg (by simp [h]), List.takeWhile_cons_of_neg (by simp [h])]
      simp [sortLoop, h]
    · have h' : isSpreadB a = false := by simpa using h
      rw [List.dropWhile_cons_of_pos (by simp [h']), List.takeWhile_cons_of_pos (by simp [h'])]
      have ih := sortLoop_eq_chunks cfg rest (g ++ [a])
      simp only [sortLoop, h', Bool.false_eq_true, if_false]
      rw [ih]
      cases hd : rest.dropWhile (fun a => !isSpreadB a) <;> simp [List.append_assoc]

/-- The sorting loop is idempotent on inputs whose non-spread attributes
all classify to a category other than `UNKNOWN`. -/
theorem sortLoop_idem (cfg : Config) :
    ∀ (n : Nat) (l : List Attr), l.length ≤ n →
      (∀ a ∈ l, isSpreadB a = false → getPropCategory cfg a ≠ UNKNOWN) →
      sortLoop cfg [] (sortLoop cfg [] l) = sortLoop cfg [] l := by
  intro n
  induction n with
  | zero =>
    intro l hl _
    have : l = [] := List.eq_nil_of_length_eq_zero (Nat.le_zero.mp hl)
    subst this
    simp [sortLoop]
  | succ n ih =>
    intro l hl hcat
    have key := sortLoop_eq_chunks cfg l []
    have hTmem : ∀ x ∈ l.takeWhile (fun a => !isSpreadB a), isSpreadB x = false := by
      intro x hx
      simpa using List.mem_takeWhile_imp hx
    have hTl : ∀ x ∈ l.takeWhile (fun a => !isSpreadB a), x ∈ l := fun x hx =>
      (List.takeWhile_sublist _).subset hx
    have hTcat : ∀ x ∈ l.takeWhile (fun a => !isSpreadB a),
        getPropCategory cfg x ≠ UNKNOWN := fun x hx =>
      hcat x (hTl x hx) (hTmem x hx)
    have hMmem : ∀ x ∈ (l.takeWhile (fun a => !isSpreadB a)).mergeSort (propLE cfg),
        isSpreadB x = false := fun x hx => hTmem x (List.mem_mergeSort.mp hx)
    cases hd : l.dropWhile (fun a => !isSpreadB a) with
    | nil =>
      rw [hd] at key
      simp only [List.nil_append] at key
      rw [key]
      have key2 := sortLoop_eq_chunks cfg
        ((l.takeWhile (fun a => !isSpreadB a)).mergeSort (propLE cfg)) []
      rw [dropWhileOfAll (fun a => !isSpreadB a)
        ((l.takeWhile (fun a => !isSpreadB a)).mergeSort (propLE cfg))
        (fun x hx => by simp [hMmem x hx])] at key2
      rw [takeWhileOfAll (fun a => !isSpreadB a)
        ((l.takeWhile (fun a => !isSpreadB a)).mergeSort (propLE cfg))
        (fun x hx => by simp [hMmem x hx])] at key2
      simp only [List.nil_append] at key2
      rw [key2]
      exact mergeSort_propLE_idem hTcat
    | cons s tl =>
      rw [hd] at key
      simp only [List.nil_append] at key
      have hs : isSpreadB s = true := by
        have := dropWhileHead hd
        simpa using this
      have hdecomp : l.takeWhile (fun a => !isSpreadB a) ++ s :: tl = l := by
        rw [← hd]
        exact List.takeWhile_append_dropWhile _ _
      have htllen : tl.length ≤ n := by
        have := congrArg List.length hdecomp
        simp only [List.length_append, List.length_cons] at this
        omega
      have htlcat : ∀ a ∈ tl, isSpreadB a = false → getPropCategory cfg a ≠ UNKNOWN := by
        intro a ha
        exact hcat a (by rw [← hdecomp]; simp [ha])
      rw [key]
      obtain ⟨ht2, hd2⟩ := takeWhileMiddle (fun a => !isSpreadB a)
        ((l.takeWhile (fun a => !isSpreadB a)).mergeSort (propLE cfg)) s
        (sortLoop cfg [] tl) (fun x hx => by simp [hMmem x hx]) (by simp [hs])
      have key3 := sortLoop_eq_chunks cfg
        ((l.takeWhile (fun a => !isSpreadB a)).mergeSort (propLE cfg) ++
          s :: sortLoop cfg [] tl) []
      rw [hd2, ht2] at key3
      simp only [List.nil_append] at key3
      rw [key3, mergeSort_propLE_idem hTcat, ih tl htllen htlcat]

theorem zipSelfAll (l : List Attr) :
    (l.zip l).all (fun p => attrTypeTag p.1 == attrTypeTag p.2 && p.1 == p.2) = true := by
  induction l with
  | nil => rfl
  | cons a l ih =>
    simp_all
    exact ih

theorem areAttributesEquivalent_refl (l : List Attr) :
    areAttributesEquivalent l l = true := by
  unfold areAttributesEquivalent
  rw [if_neg (by simp)]
  exact zipSelfAll l

/-- When every non-spread attribute classifies to a category other than
`UNKNOWN`, the comparator is a consistent comparison function, the
modelled stable sort is the one ECMAScript mandates, and the pipeline is
idempotent: re-sorting the sorter's output returns it unchanged, and the
rule visitor yields no report and no fix on an element carrying that
output.  (When an `UNKNOWN` attribute is present the comparator is
inconsistent and ECMAScript leaves the sort order implementation-defined,
so no statement is made about that regime.) -/
theorem sortAttributes_idem_of_no_unknown :
    ∀ (cfg : Config) (l : List Attr),
      (∀ a ∈ l, isSpreadB a = false → getPropCategory cfg a ≠ UNKNOWN) →
      sortAttributesPreservingSpreadPrecedence cfg
          (sortAttributesPreservingSpreadPrecedence cfg l) =
        sortAttributesPreservingSpreadPrecedence cfg l ∧
      ∀ node : ElementNode,
        node.attributes = sortAttributesPreservingSpreadPrecedence cfg l →
        jsxOpeningElement cfg node = .noChange := by
  intro cfg l hcat
  have hidem : sortAttributesPreservingSpreadPrecedence cfg
      (sortAttributesPreservingSpreadPrecedence cfg l) =
      sortAttributesPreservingSpreadPrecedence cfg l := by
    unfold sortAttributesPreservingSpreadPrecedence
    by_cases hlen : l.length ≤ 1
    · simp [hlen]
    · have hout : (sortLoop cfg [] l).length = l.length := by
        simpa using (sortLoop_perm cfg l []).length_eq
      rw [if_neg hlen, if_neg (by omega)]
      exact sortLoop_idem cfg l.length l le_rfl hcat
  refine ⟨hidem, ?_⟩
  intro node hattr
  have hsorted : sortAttributesPreservingSpreadPrecedence cfg node.attributes =
      node.attributes := by
    rw [hattr, hidem]
  by_cases hlen2 : node.attributes.length ≤ 1
  · simp [jsxOpeningElement, hlen2]
  · simp [jsxOpeningElement, hlen2, hsorted, areAttributesEquivalent_refl]

/-! The worked example of the spec (C5). -/

def attrSize : Attr := .jsxAttr ⟨0, some "size", some (.literalV "\"xs\""), "size=\"xs\""⟩

def attrKey : Attr := .jsxAttr ⟨1, some "key", some (.literalV "\"test\""), "key=\"test\""⟩

def attrAsChild : Attr := .jsxAttr ⟨2, some "asChild", none, "asChild"⟩

def attrButtonText : Attr :=
  .jsxAttr ⟨3, some "buttonText", some (.literalV "\"Click here!\""),
    "buttonText=\"Click here!\""⟩

def attrClassName : Attr :=
  .jsxAttr ⟨4, some "className", some (.literalV "\"rounded-md\""),
    "className=\"rounded-md\""⟩

def attrOnClick : Attr :=
  .jsxAttr ⟨5, some "onClick", some (.exprContainer (some (.identifier "fn")) "\x7bfn\x7d"),
    "onClick=\x7bfn\x7d"⟩

def attrUser : Attr :=
  .jsxAttr ⟨6, some "user", some (.exprContainer (some (.identifier "obj")) "\x7bobj\x7d"),
    "user=\x7bobj\x7d"⟩

def attrOnBlur : Attr :=
  .jsxAttr ⟨7, some "onBlur",
    some (.exprContainer (some .arrowFunctionExpression) "\x7b(e) => \x7b\n f(e);\n\x7d\x7d"),
    "onBlur=\x7b(e) => ...\x7d"⟩

def c5Input : List Attr :=
  [attrSize, attrKey, attrAsChild, attrButtonText, attrClassName, attrOnClick,
   attrUser, attrOnBlur]

/-- C5 is refuted on the code: with the default configuration `className`
is a member of the 12-name priority list, classifies as `REACT_RESERVED`
rather than `STRING`, and therefore sorts directly after `key` instead of
between `size` and `buttonText`. -/
theorem claim5_counterexample :
    sortAttributesPreservingSpreadPrecedence cfgDefault c5Input ≠
      [attrKey, attrAsChild, attrSize, attrClassName, attrButtonText, attrUser,
       attrOnClick, attrOnBlur] ∧
    getPropCategory cfgDefault attrClassName ≠ STRING := by
  have h : sortAttributesPreservingSpreadPrecedence cfgDefault c5Input =
      [attrKey, attrClassName, attrAsChild, attrSize, attrButtonText, attrUser,
       attrOnClick, attrOnBlur] := by
    simp +decide [sortAttributesPreservingSpreadPrecedence, sortLoop, List.mergeSort,
      List.splitInTwo, List.merge, List.splitAt_eq, propLE, compareProps, getPropCategory,
      cfgDefault, resolveConfig, defaultReactPropsList, c5Input, attrSize, attrKey,
      attrAsChild, attrButtonText, attrClassName, attrOnClick, attrUser, attrOnBlur,
      UNKNOWN, SHORTHAND, STRING, REACT_RESERVED, MULTILINE_OBJECT, MULTILINE_FUNCTION,
      VARIABLE, FUNCTION, textIsMultiline, valueRaw, localeCompare, charListCmp,
      textLines, valueLines, jsIndexOf, jsIndexOfAux, isSpreadB]
  constructor
  · rw [h]
    decide
  · decide

/-- C5 (amended): with the default configuration the sorted order of the
example attribute list is key, className, asChild, size, buttonText, user,
onClick, onBlur, the classifications being STRING (size), REACT_RESERVED
(key), SHORTHAND (asChild), STRING (buttonText), REACT_RESERVED
(className), FUNCTION (onClick), VARIABLE (user), MULTILINE_FUNCTION
(onBlur); the two non-reserved STRING names are ordered by ascending
length. -/
theorem claim5_default_config_order :
    sortAttributesPreservingSpreadPrecedence cfgDefault c5Input =
      [attrKey, attrClassName, attrAsChild, attrSize, attrButtonText, attrUser,
       attrOnClick, attrOnBlur] ∧
    c5Input.map (getPropCategory cfgDefault) =
      [STRING, REACT_RESERVED, SHORTHAND, STRING, REACT_RESERVED, FUNCTION, VARIABLE,
       MULTILINE_FUNCTION] := by
  constructor
  · simp +decide [sortAttributesPreservingSpreadPrecedence, sortLoop, List.mergeSort,
      List.splitInTwo, List.merge, List.splitAt_eq, propLE, compareProps, getPropCategory,
      cfgDefault, resolveConfig, defaultReactPropsList, c5Input, attrSize, attrKey,
      attrAsChild, attrButtonText, attrClassName, attrOnClick, attrUser, attrOnBlur,
      UNKNOWN, SHORTHAND, STRING, REACT_RESERVED, MULTILINE_OBJECT, MULTILINE_FUNCTION,
      VARIABLE, FUNCTION, textIsMultiline, valueRaw, localeCompare, charListCmp,
      textLines, valueLines, jsIndexOf, jsIndexOfAux, isSpreadB]
  · decide

/-! Multiline tie-break (C6). -/

def dMlAB : JSXAttrData :=
  ⟨130, some "ab", some (.exprContainer (some .objectExpression) "\x7b\x7b\n\x7d\x7d"), "ab=\x7b...\x7d"⟩

def dMlAA : JSXAttrData :=
  ⟨131, some "aa", some (.exprContainer (some .objectExpression) "\x7b\x7b\na: 1,\nb: 2,\nc: 3\n\x7d\x7d"),
   "aa=\x7b...\x7d"⟩

def dMlAA2 : JSXAttrData :=
  ⟨132, some "aa", some (.exprContainer (some .objectExpression) "\x7b\x7b\n\x7d\x7d"), "aa=\x7b...\x7d"⟩

/-- C6 is refuted on the code: two `MULTILINE_OBJECT` attributes whose
names have equal length but differ are ordered alphabetically by name, not
by ascending line count — here the two-line `ab` is placed after the
five-line `aa`, where ascending line count would place it before. -/
theorem claim6_counterexample :
    getPropCategory cfgDefault (.jsxAttr dMlAB) = MULTILINE_OBJECT ∧
    getPropCategory cfgDefault (.jsxAttr dMlAA) = MULTILINE_OBJECT ∧
    (dMlAB.name.map String.length = dMlAA.name.map String.length) ∧
    valueLines dMlAB < valueLines dMlAA ∧
    0 < compareProps cfgDefault (.jsxAttr dMlAB) (.jsxAttr dMlAA) := by
  refine ⟨by decide, by decide, by decide, by decide, by decide⟩

/-- C6 (amended): for two attributes both classified `MULTILINE_OBJECT`
whose names are equal (the only case in which the line-count tie-break is
reached), the comparator orders them by ascending line count of the
extracted value text. -/
theorem claim6_multiline_same_name_line_tiebreak :
    ∀ (cfg : Config) (dA dB : JSXAttrData),
      getPropCategory cfg (.jsxAttr dA) = MULTILINE_OBJECT →
      getPropCategory cfg (.jsxAttr dB) = MULTILINE_OBJECT →
      dA.name = dB.name →
      compareProps cfg (.jsxAttr dA) (.jsxAttr dB) = valueLines dA - valueLines dB := by
  intro cfg dA dB hA hB hname
  obtain ⟨na, hna⟩ : ∃ n, dA.name = some n := by
    cases h : dA.name with
    | none =>
      have hu : getPropCategory cfg (.jsxAttr dA) = UNKNOWN := by
        simp [getPropCategory, h]
      rw [hA] at hu
      exact absurd hu (by norm_num [MULTILINE_OBJECT, UNKNOWN])
    | some n => exact ⟨n, rfl⟩
  obtain ⟨nb, hnb⟩ : ∃ n, dB.name = some n := by
    cases h : dB.name with
    | none =>
      have hu : getPropCategory cfg (.jsxAttr dB) = UNKNOWN := by
        simp [getPropCategory, h]
      rw [hB] at hu
      exact absurd hu (by norm_num [MULTILINE_OBJECT, UNKNOWN])
    | some n => exact ⟨n, rfl⟩
  have hnn : na = nb := by
    rw [hna, hnb] at hname
    exact Option.some.inj hname
  subst hnn
  simp only [compareProps, hna, hnb]
  rw [if_neg (by rw [hA, hB]; norm_num [MULTILINE_OBJECT, UNKNOWN]),
    if_neg (fun hne => hne (hA.trans hB.symm)),
    if_neg (fun hre => by rw [hA] at hre; norm_num [MULTILINE_OBJECT, REACT_RESERVED] at hre),
    if_neg (fun hne => hne rfl), if_neg (fun hne => hne rfl), if_pos (Or.inl hA)]

/-- Witness for the amended C6 at a concrete same-name pair. -/
theorem claim6_witness :
    compareProps cfgDefault (.jsxAttr dMlAA2) (.jsxAttr dMlAA) =
      valueLines dMlAA2 - valueLines dMlAA :=
  claim6_multiline_same_name_line_tiebreak cfgDefault dMlAA2 dMlAA (by decide) (by decide)
    (by decide)

/-! UNKNOWN attributes. -/

/-- The comparator returns 0 in both argument orders whenever either
operand classifies as `UNKNOWN`, so the comparator itself never reports a
reordering preference for an `UNKNOWN` attribute.  (Whether the sort then
keeps the relative order of such a pair is implementation-defined under
ECMAScript, since the comparator is inconsistent in that regime.) -/
theorem compareProps_unknown_eq_zero :
    ∀ (cfg : Config) (a b : Attr),
      getPropCategory cfg a = UNKNOWN ∨ getPropCategory cfg b = UNKNOWN →
      compareProps cfg a b = 0 ∧ compareProps cfg b a = 0 := by
  intro cfg a b h
  constructor
  · simp only [compareProps]
    rw [if_pos h]
  · simp only [compareProps]
    rw [if_pos h.symm]

/-! Layout of the replacement text (C8). -/

/-- The per-attribute line layout the spec describes: every attribute text
on its own line behind the attribute indentation. -/
def perAttrLineBlock (attrIndent : String) : List String → String
  | [] => ""
  | t :: rest => "\n" ++ attrIndent ++ t ++ perAttrLineBlock attrIndent rest

theorem jsJoin_block (ai : String) :
    ∀ (t : String) (ts : List String),
      "\n" ++ ai ++ jsJoin ("\n" ++ ai) (t :: ts) = perAttrLineBlock ai (t :: ts)
  | t, [] => by simp [jsJoin, perAttrLineBlock]
  | t, u :: ts => by
    have ih := jsJoin_block ai u ts
    rw [show perAttrLineBlock ai (t :: u :: ts) =
      "\n" ++ ai ++ t ++ perAttrLineBlock ai (u :: ts) from rfl]
    rw [← ih]
    simp only [jsJoin]
    apply String.ext
    simp [String.data_append, List.append_assoc]

/-- C8: whenever a fix is emitted, the replacement text for the
opening-tag region is the tag name, then each attribute's extracted source
text on its own line indented by the element text's leading whitespace
plus one two-space indent unit, then the original terminator (a space and
a slash-closed bracket when self-closing, a plain closing bracket
otherwise). -/
theorem claim8_fix_text_layout :
    ∀ (node : ElementNode) (sortedAttributes : List Attr), sortedAttributes ≠ [] →
      createFixText node sortedAttributes =
        "<" ++ node.tagName ++
          perAttrLineBlock (leadingSpace node.nodeText ++ "  ")
            (sortedAttributes.map attrSourceText) ++
          (if node.selfClosing then " />" else ">") := by
  intro node sorted hne
  cases sorted with
  | nil => exact absurd rfl hne
  | cons a rest =>
    simp only [createFixText, List.map_cons]
    rw [← jsJoin_block]
    apply String.ext
    simp [String.data_append, List.append_assoc]

/-- Witness for C8 at a concrete element and attribute pair. -/
theorem claim8_witness :
    createFixText ⟨"C", true, "<C a b />", [attrShort, attrLit]⟩ [attrShort, attrLit] =
      "<C\n  a\n  b=\"1\" />" := by
  rw [claim8_fix_text_layout ⟨"C", true, "<C a b />", [attrShort, attrLit]⟩
    [attrShort, attrLit] (by decide)]
  decide

end JsxPropsOrder
